import Mathlib

/-!
Verification of the pyroscope bucket compactor core
(`pkg/compactor/bucket_compactor.go`, plus the ingestion queue panic
handler in `pkg/ingestion/queue.go`) against its natural-language
specification.

Shallow embedding conventions:

* Block identifiers (`ulid.ULID`, 128-bit) are modelled as `Nat`; the
  value `0` stands for the all-zero ULID (`ulid.ULID{}`, "empty block").
* `block.Meta` is modelled by the `Meta` structure below, keeping only
  the fields the compactor core reads (`ULID`, `MinTime`, `MaxTime`,
  `Stats.NumSamples`, `Labels`, `Downsample.Resolution`).
* Millisecond timestamps (`model.Time`, an `int64`) are modelled as
  `Int`.  The Go code converts `MinTime`/`MaxTime` to `time.Time` with
  `time.Unix(0, ms * int64(time.Millisecond)).UTC()` and back with
  `UnixMilli()`; on the int64-millisecond domain used by blocks this
  round-trip is the identity, so the embedding keeps milliseconds
  throughout.
* Fallible I/O steps (downloads, meta reads, uploads, deletion-marker
  writes, ...) are oracles passed in a `JobEnv` record: for each step
  the oracle returns `none`/`Except.ok` when the Go call would return a
  nil error, and the error value otherwise.  The bounded-parallel
  `concurrency.ForEachJob` loops are modelled sequentially in slice
  order; `ForEachJob` returns a non-nil error iff some iteration failed,
  which is what the claims depend on.
* Go maps (`map[ulid.ULID]*block.Meta`) are modelled as association
  lists `List (Nat × Meta)`; `delete(m, id)` removes every pair with
  that key, which on the nodup-key lists produced by a Go map agrees
  with map deletion.
-/

namespace PyroscopeCompactor

/-- Block metadata: the fields of `block.Meta` read by the compactor core. -/
structure Meta where
  ulid : Nat
  minTime : Int
  maxTime : Int
  numSamples : Nat
  labels : List (String × String)
  resolution : Int
deriving DecidableEq

/-- `hasNonZeroULIDs` (bucket_compactor.go:879): true iff some id is not the
all-zero ULID. -/
def hasNonZeroULIDs (ids : List Nat) : Bool :=
  ids.any (fun id => id ≠ 0)

/-- `convertCompactionResultToForEachJobs` (bucket_compactor.go:461): keeps the
non-empty block ids, in order.  The shard index recorded by the Go code is
positional and not consulted by any claim, so only the id list is kept. -/
def convertCompactionResultToForEachJobs (compactedBlocks : List Nat) : List Nat :=
  compactedBlocks.filter (fun id => id ≠ 0)

/-- The loop body of `verifyCompactedBlocksTimeRanges`
(bucket_compactor.go:420-448).  `readMeta` is the `block.ReadMetaFromDir`
oracle for the output directory of each id.  The accumulators are the
`sourceBlocksMinTimeFound` / `sourceBlocksMaxTimeFound` flags. -/
def verifyLoop (readMeta : Nat → Except String Meta) (sMin sMax : Int) :
    List Nat → Bool → Bool → Except String (Bool × Bool)
  | [], minFound, maxFound => .ok (minFound, maxFound)
  | id :: rest, minFound, maxFound =>
    if id = 0 then
      verifyLoop readMeta sMin sMax rest minFound maxFound
    else
      match readMeta id with
      | .error e =>
        .error ("failed to read meta.json during block time range verification: " ++ e)
      | .ok meta =>
        if meta.minTime < sMin then
          .error "invalid minTime for block, compacted block minTime is before source minTime"
        else if meta.maxTime > sMax then
          .error "invalid maxTime for block, compacted block maxTime is after source maxTime"
        else
          verifyLoop readMeta sMin sMax rest
            (minFound || decide (meta.minTime = sMin))
            (maxFound || decide (meta.maxTime = sMax))

/-- `verifyCompactedBlocksTimeRanges` (bucket_compactor.go:416-457): walks the
compacted ids, skipping all-zero ones; errors on a meta-read failure or a
bound violation; after the walk errors unless both the source min time and the
source max time were attained by some non-empty output. -/
def verifyCompactedBlocksTimeRanges (readMeta : Nat → Except String Meta)
    (compIDs : List Nat) (sourceBlocksMinTime sourceBlocksMaxTime : Int) : Option String :=
  match verifyLoop readMeta sourceBlocksMinTime sourceBlocksMaxTime compIDs false false with
  | .error e => some e
  | .ok (minFound, maxFound) =>
    if !minFound || !maxFound then
      some "compacted blocks do not contain minTime and maxTime from the source blocks"
    else
      none

/-- A non-empty output id whose meta violates the source bounds
(`MinTime < sourceBlocksMinTime` or `MaxTime > sourceBlocksMaxTime`). -/
def violatesBounds (readMeta : Nat → Except String Meta) (sMin sMax : Int) (id : Nat) : Bool :=
  id ≠ 0 &&
    match readMeta id with
    | .ok m => m.minTime < sMin || m.maxTime > sMax
    | .error _ => false

/-- A non-empty output id whose meta fails to be read, or violates the bounds:
the conditions under which the verification loop aborts with an error. -/
def badVerifyId (readMeta : Nat → Except String Meta) (sMin sMax : Int) (id : Nat) : Bool :=
  id ≠ 0 &&
    match readMeta id with
    | .ok m => m.minTime < sMin || m.maxTime > sMax
    | .error _ => true

/-- A non-empty output id whose meta attains the source min time exactly. -/
def attainsMin (readMeta : Nat → Except String Meta) (sMin : Int) (id : Nat) : Bool :=
  id ≠ 0 &&
    match readMeta id with
    | .ok m => m.minTime = sMin
    | .error _ => false

/-- A non-empty output id whose meta attains the source max time exactly. -/
def attainsMax (readMeta : Nat → Except String Meta) (sMax : Int) (id : Nat) : Bool :=
  id ≠ 0 &&
    match readMeta id with
    | .ok m => m.maxTime = sMax
    | .error _ => false

/-- The error condition asserted by claim C2, read off the claim text: an
error iff some non-empty output violates the bounds, or NEITHER the source
min time NOR the source max time is attained exactly by some non-empty
output. -/
def c2ClaimedErrorCondition (readMeta : Nat → Except String Meta)
    (compIDs : List Nat) (sMin sMax : Int) : Bool :=
  compIDs.any (violatesBounds readMeta sMin sMax) ||
    (!(compIDs.any (attainsMin readMeta sMin)) && !(compIDs.any (attainsMax readMeta sMax)))

/-- If no id in the list would make the verification loop abort, the loop
returns the accumulated flags, extended by whether some id attains the source
min/max time. -/
theorem verifyLoop_ok (readMeta : Nat → Except String Meta) (sMin sMax : Int)
    (l : List Nat) (mf xf : Bool)
    (h : ∀ id ∈ l, badVerifyId readMeta sMin sMax id = false) :
    verifyLoop readMeta sMin sMax l mf xf =
      .ok (mf || l.any (attainsMin readMeta sMin), xf || l.any (attainsMax readMeta sMax)) := by
  induction l generalizing mf xf with
  | nil => simp [verifyLoop]
  | cons id rest ih =>
    have hid := h id (List.mem_cons_self ..)
    have hrest : ∀ i ∈ rest, badVerifyId readMeta sMin sMax i = false :=
      fun i hi => h i (List.mem_cons_of_mem _ hi)
    by_cases h0 : id = 0
    · subst h0
      simp [verifyLoop, ih mf xf hrest, attainsMin, attainsMax]
    · cases hrm : readMeta id with
      | error e =>
        exfalso
        rw [badVerifyId, hrm] at hid
        simp [h0] at hid
      | ok m =>
        rw [badVerifyId, hrm] at hid
        simp only [ne_eq, h0, not_false_eq_true, Bool.or_eq_false_iff,
          decide_eq_false_iff_not, not_lt, decide_not, Bool.not_eq_false,
          decide_eq_true_eq, Bool.and_eq_false_iff, Bool.not_eq_true] at hid
        rcases hid with hid | hid
        · simp at hid
        obtain ⟨hmin, hmax⟩ := hid
        rw [verifyLoop]
        simp only [h0, if_false, hrm, not_lt.mpr hmin, if_false, not_lt.mpr hmax]
        rw [ih]
        · simp only [List.any_cons, attainsMin, attainsMax, ne_eq, h0, not_false_eq_true,
            decide_True, Bool.true_and, hrm]
          rw [Bool.or_assoc, Bool.or_assoc]
        · exact hrest

/-- If some id in the list would make the verification loop abort (unreadable
meta or a bound violation), the loop returns an error. -/
theorem verifyLoop_error (readMeta : Nat → Except String Meta) (sMin sMax : Int)
    (l : List Nat) (mf xf : Bool)
    (h : l.any (badVerifyId readMeta sMin sMax) = true) :
    (verifyLoop readMeta sMin sMax l mf xf).isOk = false := by
  induction l generalizing mf xf with
  | nil => simp at h
  | cons id rest ih =>
    rw [List.any_cons, Bool.or_eq_true] at h
    by_cases h0 : id = 0
    · subst h0
      rcases h with hbad | hrest
      · simp [badVerifyId] at hbad
      · rw [verifyLoop]
        exact ih mf xf hrest
    · cases hrm : readMeta id with
      | error e =>
        rw [verifyLoop]
        simp [h0, hrm, Except.isOk, Except.toBool]
      | ok m =>
        by_cases hmin : m.minTime < sMin
        · rw [verifyLoop]
          simp [h0, hrm, hmin, Except.isOk, Except.toBool]
        · by_cases hmax : m.maxTime > sMax
          · rw [verifyLoop]
            simp [h0, hrm, hmin, hmax, Except.isOk, Except.toBool]
          · have hrest : rest.any (badVerifyId readMeta sMin sMax) = true := by
              rcases h with hbad | hrest
              · rw [badVerifyId, hrm] at hbad
                simp [hmin, hmax] at hbad
              · exact hrest
            rw [verifyLoop]
            simp only [h0, if_false, hrm, hmin, if_false, gt_iff_lt, hmax, if_false]
            exact ih _ _ hrest

/-- C2, counterexample.  With a single compacted block whose meta has
`MinTime = 0 = sourceBlocksMinTime` and `MaxTime = 5` against source bounds
`[0, 10]`, no output violates the bounds and the source min time IS attained
(so the claimed error condition is false), yet the code returns an error
because the source max time is not attained: the claim requires "neither
bound attained" for an error, but the code errors when either is missed. -/
def rmC2 : Nat → Except String Meta := fun _ => .ok ⟨1, 0, 5, 0, [], 0⟩

/-- C2: the claim is false as stated.  At the concrete input above,
`verifyCompactedBlocksTimeRanges` returns an error although the claimed
error condition (bound violation, or neither source bound attained) does
not hold. -/
theorem c2_counterexample :
    (verifyCompactedBlocksTimeRanges rmC2 [1] 0 10).isSome = true ∧
      c2ClaimedErrorCondition rmC2 [1] 0 10 = false := by
  refine ⟨by decide, by decide⟩

/-- C2, amended: provided every non-empty output id has a readable meta,
`verifyCompactedBlocksTimeRanges` returns an error iff some non-empty output
violates the source bounds, or the source min time is not attained exactly by
some non-empty output, or the source max time is not attained exactly by some
non-empty output (rather than "neither attained" as originally claimed). -/
theorem c2_verify_error_characterization (readMeta : Nat → Except String Meta)
    (compIDs : List Nat) (sMin sMax : Int)
    (hread : ∀ id ∈ compIDs, id ≠ 0 → (readMeta id).isOk = true) :
    (verifyCompactedBlocksTimeRanges readMeta compIDs sMin sMax).isSome =
      (compIDs.any (violatesBounds readMeta sMin sMax) ||
        !(compIDs.any (attainsMin readMeta sMin)) ||
        !(compIDs.any (attainsMax readMeta sMax))) := by
  have hbad_eq : ∀ id ∈ compIDs,
      badVerifyId readMeta sMin sMax id = violatesBounds readMeta sMin sMax id := by
    intro id hid
    rw [badVerifyId, violatesBounds]
    by_cases h0 : id = 0
    · simp [h0]
    · cases hrm : readMeta id with
      | error e =>
        have := hread id hid h0
        rw [hrm] at this
        simp [Except.isOk, Except.toBool] at this
      | ok m => rfl
  by_cases hviol : compIDs.any (violatesBounds readMeta sMin sMax) = true
  · have hbad : compIDs.any (badVerifyId readMeta sMin sMax) = true := by
      rw [List.any_eq_true] at hviol ⊢
      obtain ⟨id, hid, hv⟩ := hviol
      exact ⟨id, hid, (hbad_eq id hid).symm ▸ hv⟩
    have he := verifyLoop_error readMeta sMin sMax compIDs false false hbad
    rw [verifyCompactedBlocksTimeRanges]
    cases hv : verifyLoop readMeta sMin sMax compIDs false false with
    | error e => rw [hviol]; rfl
    | ok p => rw [hv] at he; simp [Except.isOk, Except.toBool] at he
  · have hnobad : ∀ id ∈ compIDs, badVerifyId readMeta sMin sMax id = false := by
      intro id hid
      rw [hbad_eq id hid]
      have := (Bool.not_eq_true _) ▸ hviol
      rw [List.any_eq_false] at this
      simpa using this id hid
    rw [verifyCompactedBlocksTimeRanges, verifyLoop_ok readMeta sMin sMax compIDs false false hnobad]
    rw [Bool.not_eq_true] at hviol
    rw [hviol]
    simp only [Bool.false_or]
    by_cases hmin : compIDs.any (attainsMin readMeta sMin) = true <;>
      by_cases hmax : compIDs.any (attainsMax readMeta sMax) = true <;>
      simp [hmin, hmax]

/-- C2 witness: the amended characterization applied at a concrete input
where all metas are readable. -/
def rmC2w : Nat → Except String Meta := fun id => .ok ⟨id, 0, 10, 1, [], 0⟩

/-- C2, witness for the amended theorem at a concrete input. -/
theorem c2_witness :
    (∀ id ∈ [(1 : Nat)], id ≠ 0 → (rmC2w id).isOk = true) ∧
      (verifyCompactedBlocksTimeRanges rmC2w [1] 0 10).isSome =
        ((List.any [1] (violatesBounds rmC2w 0 10)) ||
          !(List.any [1] (attainsMin rmC2w 0)) ||
          !(List.any [1] (attainsMax rmC2w 10))) :=
  ⟨by decide, c2_verify_error_characterization rmC2w [1] 0 10 (by decide)⟩

/-- The environment of one `runCompactionJob` call: one oracle per fallible
step of the pipeline, indexed by the block id the step operates on.  `none` /
`Except.ok` is the Go nil error. -/
structure JobEnv where
  /-- `os.MkdirAll(subDir, ...)` (line 242) succeeds. -/
  mkdirOk : Bool
  /-- `c.planner.Plan(ctx, job.metasByMinTime)` (line 246). -/
  plan : List Meta → Except String (List Meta)
  /-- `block.Download` (line 272) per source block id. -/
  downloadErr : Nat → Option String
  /-- `client.NewBucket` (line 290) succeeds. -/
  localBucketOk : Bool
  /-- `b.Open(ctx)` (line 314) per source block id. -/
  openErr : Nat → Option String
  /-- `phlaredb.CompactWithSplitting` (lines 328-330): the output metas,
  positions corresponding to shard indices, zero ULIDs for empty shards. -/
  compactResult : Except String (List Meta)
  /-- `block.ReadMetaFromDir` (lines 372, 427) per output block id. -/
  readMeta : Nat → Except String Meta
  /-- the `tombstones` file exists in the output block directory (line 377):
  `os.Remove` fails when the file does not exist. -/
  tombstonesPresent : Nat → Bool
  /-- `os.Remove` on an existing `tombstones` file fails with an I/O error. -/
  tombstonesRemoveIOErr : Nat → Bool
  /-- `phlaredb.ValidateLocalBlock` (line 382) per output block id. -/
  validateErr : Nat → Option String
  /-- `block.Upload` (line 387) per output block id. -/
  uploadErr : Nat → Option String
  /-- `os.RemoveAll(bdir)` inside `deleteBlock` (line 481) per block id. -/
  removeLocalDirErr : Nat → Option String
  /-- `block.MarkForDeletion` inside `deleteBlock` (line 489) per block id. -/
  markForDeletionErr : Nat → Option String

/-- Observable side effects of one `runCompactionJob` call. -/
structure JobEffects where
  /-- ids downloaded successfully by `block.Download`. -/
  downloaded : List Nat := []
  /-- ids uploaded successfully by `block.Upload`. -/
  uploaded : List Nat := []
  /-- ids for which `block.MarkForDeletion` was called. -/
  markAttempted : List Nat := []
  /-- ids for which `block.MarkForDeletion` returned nil. -/
  marked : List Nat := []
  /-- increments of the `compactionBlocksVerificationFailed` counter. -/
  verificationFailedInc : Nat := 0
deriving DecidableEq

/-- Return value of `runCompactionJob`: `(shouldRerun, compIDs, rerr)` plus
the recorded effects. -/
structure JobResult where
  shouldRerun : Bool
  compIDs : List Nat
  err : Option String
  effects : JobEffects
deriving DecidableEq

/-- `deleteBlock` (bucket_compactor.go:480-493): removes the local block
directory, then marks the block for deletion in the bucket under a fresh
5-minute background context. -/
def deleteBlock (env : JobEnv) (id : Nat) (eff : JobEffects) : JobEffects × Option String :=
  match env.removeLocalDirErr id with
  | some e => (eff, some ("remove old block dir: " ++ e))
  | none =>
    let eff1 := { eff with markAttempted := eff.markAttempted ++ [id] }
    match env.markForDeletionErr id with
    | some e => (eff1, some ("mark block for deletion from bucket: " ++ e))
    | none => ({ eff1 with marked := eff1.marked ++ [id] }, none)

/-- The download stage (bucket_compactor.go:266-277), one `block.Download`
per planned block; the parallel `concurrency.ForEachJob` is modelled in
slice order, stopping at the first error. -/
def downloadLoop (env : JobEnv) : List Meta → JobEffects → JobEffects × Option String
  | [], eff => (eff, none)
  | m :: rest, eff =>
    match env.downloadErr m.ulid with
    | some e => (eff, some ("download block: " ++ e))
    | none => downloadLoop env rest { eff with downloaded := eff.downloaded ++ [m.ulid] }

/-- The block open stage (bucket_compactor.go:311-319), one `Open` per
planned block. -/
def openLoop (env : JobEnv) : List Meta → Option String
  | [] => none
  | m :: rest =>
    match env.openErr m.ulid with
    | some e => some ("open block: " ++ e)
    | none => openLoop env rest

/-- The empty-compaction path (bucket_compactor.go:342-348): every planned
source meta with `Stats.NumSamples == 0` is passed to `deleteBlock`; a
failure is only logged. -/
def markEmptySourcesLoop (env : JobEnv) : List Meta → JobEffects → JobEffects
  | [], eff => eff
  | m :: rest, eff =>
    if m.numSamples = 0 then
      markEmptySourcesLoop env rest (deleteBlock env m.ulid eff).1
    else
      markEmptySourcesLoop env rest eff

/-- The upload stage (bucket_compactor.go:365-394) for the non-empty output
ids: read the meta, remove the `tombstones` file, validate, upload; the
first error aborts. -/
def uploadLoop (env : JobEnv) : List Nat → JobEffects → JobEffects × Option String
  | [], eff => (eff, none)
  | id :: rest, eff =>
    match env.readMeta id with
    | .error e => (eff, some ("failed to read meta from the block dir: " ++ e))
    | .ok _ =>
      if !env.tombstonesPresent id || env.tombstonesRemoveIOErr id then
        (eff, some "remove tombstones")
      else
        match env.validateErr id with
        | some e => (eff, some ("invalid result block: " ++ e))
        | none =>
          match env.uploadErr id with
          | some e => (eff, some ("upload failed: " ++ e))
          | none => uploadLoop env rest { eff with uploaded := eff.uploaded ++ [id] }

/-- The final marking stage (bucket_compactor.go:405-409): `deleteBlock` on
every planned source; the first error aborts the job. -/
def markSourcesLoop (env : JobEnv) : List Meta → JobEffects → JobEffects × Option String
  | [], eff => (eff, none)
  | m :: rest, eff =>
    match deleteBlock env m.ulid eff with
    | (eff1, some e) => (eff1, some e)
    | (eff1, none) => markSourcesLoop env rest eff1

/-- `minTime` (bucket_compactor.go:183-196) of the planned blocks, in
milliseconds (the `time.Time` round-trip is the identity on this domain);
the Go function returns the zero time on an empty slice, which the caller
excludes. -/
def srcMinTime : List Meta → Int
  | [] => 0
  | m :: rest => rest.foldl (fun acc x => if x.minTime < acc then x.minTime else acc) m.minTime

/-- `maxTime` (bucket_compactor.go:198-211) of the planned blocks, in
milliseconds. -/
def srcMaxTime : List Meta → Int
  | [] => 0
  | m :: rest => rest.foldl (fun acc x => if x.maxTime > acc then x.maxTime else acc) m.maxTime

/-- The verification step of `runCompactionJob` (bucket_compactor.go:359-362):
a verification error is only logged and counted in the
`compactionBlocksVerificationFailed` metric; the job continues either way. -/
def bumpVerifyFailed (env : JobEnv) (compIDs : List Nat) (sMin sMax : Int)
    (eff : JobEffects) : JobEffects :=
  match verifyCompactedBlocksTimeRanges env.readMeta compIDs sMin sMax with
  | some _ => { eff with verificationFailedInc := eff.verificationFailedInc + 1 }
  | none => eff

/-- `runCompactionJob` (bucket_compactor.go:222-412): the per-job pipeline
plan → download → open → compact → (empty path | verify → upload → mark).
Failed stages return `(false, nil, err)`; the verification stage only logs
and increments a counter (lines 359-362). -/
def runCompactionJob (env : JobEnv) (metasByMinTime : List Meta) : JobResult :=
  if !env.mkdirOk then
    ⟨false, [], some "create compaction job dir", {}⟩
  else
    match env.plan metasByMinTime with
    | .error e => ⟨false, [], some ("plan compaction: " ++ e), {}⟩
    | .ok toCompact =>
      if toCompact.isEmpty then
        ⟨false, [], none, {}⟩
      else
        let sMin := srcMinTime toCompact
        let sMax := srcMaxTime toCompact
        match downloadLoop env toCompact {} with
        | (eff, some e) => ⟨false, [], some e, eff⟩
        | (eff, none) =>
          if !env.localBucketOk then
            ⟨false, [], some "create local bucket", eff⟩
          else
            match openLoop env toCompact with
            | some e => ⟨false, [], some e, eff⟩
            | none =>
              match env.compactResult with
              | .error e => ⟨false, [], some ("compact blocks: " ++ e), eff⟩
              | .ok out =>
                let compIDs := out.map (fun o => o.ulid)
                if !hasNonZeroULIDs compIDs then
                  ⟨true, [], none, markEmptySourcesLoop env toCompact eff⟩
                else
                  let eff2 := bumpVerifyFailed env compIDs sMin sMax eff
                  match uploadLoop env (convertCompactionResultToForEachJobs compIDs) eff2 with
                  | (eff3, some e) => ⟨false, [], some e, eff3⟩
                  | (eff3, none) =>
                    match markSourcesLoop env toCompact eff3 with
                    | (eff4, some e) => ⟨false, [], some e, eff4⟩
                    | (eff4, none) => ⟨true, compIDs, none, eff4⟩

/-- A download stage in which every planned block downloads cleanly records
exactly the planned ids, in order. -/
theorem downloadLoop_ok (env : JobEnv) (l : List Meta) (eff : JobEffects)
    (h : ∀ m ∈ l, env.downloadErr m.ulid = none) :
    downloadLoop env l eff =
      ({ eff with downloaded := eff.downloaded ++ l.map (fun m => m.ulid) }, none) := by
  induction l generalizing eff with
  | nil => simp [downloadLoop]
  | cons m rest ih =>
    rw [downloadLoop, h m (List.mem_cons_self ..)]
    rw [ih _ (fun x hx => h x (List.mem_cons_of_mem _ hx))]
    simp

/-- An open stage in which every planned block opens cleanly reports no
error. -/
theorem openLoop_ok (env : JobEnv) (l : List Meta)
    (h : ∀ m ∈ l, env.openErr m.ulid = none) :
    openLoop env l = none := by
  induction l with
  | nil => rfl
  | cons m rest ih =>
    rw [openLoop, h m (List.mem_cons_self ..)]
    exact ih fun x hx => h x (List.mem_cons_of_mem _ hx)

/-- When the local directory removals succeed, the empty-compaction path
calls `block.MarkForDeletion` on exactly the zero-sample sources, in order,
and records as marked exactly those whose marking succeeded; the other
effect fields are untouched. -/
theorem markEmptySourcesLoop_characterization (env : JobEnv) (l : List Meta)
    (eff : JobEffects)
    (h : ∀ m ∈ l, env.removeLocalDirErr m.ulid = none) :
    markEmptySourcesLoop env l eff =
      { eff with
        markAttempted := eff.markAttempted ++
          ((l.filter (fun m => m.numSamples = 0)).map (fun m => m.ulid))
        marked := eff.marked ++
          ((l.filter (fun m =>
              m.numSamples = 0 ∧ env.markForDeletionErr m.ulid = none)).map
            (fun m => m.ulid)) } := by
  induction l generalizing eff with
  | nil => simp [markEmptySourcesLoop]
  | cons m rest ih =>
    have hm := h m (List.mem_cons_self ..)
    have hrest := fun x hx => h x (List.mem_cons_of_mem _ hx)
    rw [markEmptySourcesLoop]
    by_cases hz : m.numSamples = 0
    · rw [if_pos hz]
      rw [deleteBlock, hm]
      cases hmark : env.markForDeletionErr m.ulid with
      | some e =>
        simp only []
        rw [ih _ hrest]
        simp [hz, hmark, List.filter_cons]
      | none =>
        simp only []
        rw [ih _ hrest]
        simp [hz, hmark, List.filter_cons]
    · rw [if_neg hz]
      rw [ih _ hrest]
      simp [hz, List.filter_cons]

/-- An upload stage in which every block uploads cleanly records exactly the
given ids, in order. -/
theorem uploadLoop_ok (env : JobEnv) (l : List Nat) (eff : JobEffects)
    (hread : ∀ id ∈ l, (env.readMeta id).isOk = true)
    (htomb : ∀ id ∈ l, env.tombstonesPresent id = true)
    (hio : ∀ id ∈ l, env.tombstonesRemoveIOErr id = false)
    (hval : ∀ id ∈ l, env.validateErr id = none)
    (hup : ∀ id ∈ l, env.uploadErr id = none) :
    uploadLoop env l eff = ({ eff with uploaded := eff.uploaded ++ l }, none) := by
  induction l generalizing eff with
  | nil => simp [uploadLoop]
  | cons id rest ih =>
    rw [uploadLoop]
    cases hrm : env.readMeta id with
    | error e =>
      exfalso
      have := hread id (List.mem_cons_self ..)
      rw [hrm] at this
      simp [Except.isOk, Except.toBool] at this
    | ok m =>
      rw [htomb id (List.mem_cons_self ..), hio id (List.mem_cons_self ..)]
      simp only [Bool.not_true, Bool.or_self, Bool.false_eq_true, if_false]
      rw [hval id (List.mem_cons_self ..), hup id (List.mem_cons_self ..)]
      rw [ih _ (fun x hx => hread x (List.mem_cons_of_mem _ hx))
        (fun x hx => htomb x (List.mem_cons_of_mem _ hx))
        (fun x hx => hio x (List.mem_cons_of_mem _ hx))
        (fun x hx => hval x (List.mem_cons_of_mem _ hx))
        (fun x hx => hup x (List.mem_cons_of_mem _ hx))]
      simp

/-- If the upload stage finishes without error, every id in its list had its
tombstones file present and its removal, validation and upload clean. -/
theorem uploadLoop_none_forall (env : JobEnv) (l : List Nat) (eff eff1 : JobEffects)
    (h : uploadLoop env l eff = (eff1, none)) :
    ∀ id ∈ l, env.tombstonesPresent id = true ∧ env.tombstonesRemoveIOErr id = false := by
  induction l generalizing eff with
  | nil => intro id hid; cases hid
  | cons x rest ih =>
    intro id hid
    rw [uploadLoop] at h
    cases hrm : env.readMeta x with
    | error e => rw [hrm] at h; cases h
    | ok m =>
      rw [hrm] at h
      by_cases ht : (!env.tombstonesPresent x || env.tombstonesRemoveIOErr x) = true
      · rw [if_pos ht] at h; cases h
      · rw [if_neg ht] at h
        have htp : env.tombstonesPresent x = true := by
          cases htb : env.tombstonesPresent x
          · exact absurd (by simp [htb]) ht
          · rfl
        have hioe : env.tombstonesRemoveIOErr x = false := by
          cases hiob : env.tombstonesRemoveIOErr x
          · rfl
          · exact absurd (by simp [hiob]) ht
        rcases List.mem_cons.mp hid with hid | hid
        · subst hid
          exact ⟨htp, hioe⟩
        · cases hv : env.validateErr x with
          | some e => rw [hv] at h; cases h
          | none =>
            rw [hv] at h
            cases hu : env.uploadErr x with
            | some e => rw [hu] at h; cases h
            | none =>
              rw [hu] at h
              exact ih _ h id hid

/-- A final marking stage in which the local removals and the deletion
markings all succeed attempts and records exactly the planned source ids, in
order. -/
theorem markSourcesLoop_ok (env : JobEnv) (l : List Meta) (eff : JobEffects)
    (hrm : ∀ m ∈ l, env.removeLocalDirErr m.ulid = none)
    (hmk : ∀ m ∈ l, env.markForDeletionErr m.ulid = none) :
    markSourcesLoop env l eff =
      ({ eff with
          markAttempted := eff.markAttempted ++ l.map (fun m => m.ulid)
          marked := eff.marked ++ l.map (fun m => m.ulid) }, none) := by
  induction l generalizing eff with
  | nil => simp [markSourcesLoop]
  | cons m rest ih =>
    rw [markSourcesLoop, deleteBlock, hrm m (List.mem_cons_self ..),
      hmk m (List.mem_cons_self ..)]
    simp only []
    rw [ih _ (fun x hx => hrm x (List.mem_cons_of_mem _ hx))
      (fun x hx => hmk x (List.mem_cons_of_mem _ hx))]
    simp

/-- Abbreviation: the ids of the metas returned by the compactor. -/
def metaULIDs (out : List Meta) : List Nat :=
  out.map (fun o => o.ulid)

/-- Full characterization of a job run in which every I/O stage succeeds and
the compactor produced at least one non-empty output.  The verification
outcome is NOT constrained: whether or not the compacted blocks pass the time
range verification, the job uploads, marks every source for deletion, and
returns `(true, compIDs, nil)`; the only trace of a verification failure is
the incremented counter. -/
theorem runCompactionJob_success (env : JobEnv) (metas toCompact out : List Meta)
    (hmk : env.mkdirOk = true)
    (hplan : env.plan metas = .ok toCompact)
    (hne : toCompact ≠ [])
    (hdl : ∀ m ∈ toCompact, env.downloadErr m.ulid = none)
    (hlb : env.localBucketOk = true)
    (hop : ∀ m ∈ toCompact, env.openErr m.ulid = none)
    (hcp : env.compactResult = .ok out)
    (hnz : hasNonZeroULIDs (metaULIDs out) = true)
    (hread : ∀ id ∈ convertCompactionResultToForEachJobs (metaULIDs out),
      (env.readMeta id).isOk = true)
    (htomb : ∀ id ∈ convertCompactionResultToForEachJobs (metaULIDs out),
      env.tombstonesPresent id = true)
    (hio : ∀ id ∈ convertCompactionResultToForEachJobs (metaULIDs out),
      env.tombstonesRemoveIOErr id = false)
    (hval : ∀ id ∈ convertCompactionResultToForEachJobs (metaULIDs out),
      env.validateErr id = none)
    (hup : ∀ id ∈ convertCompactionResultToForEachJobs (metaULIDs out),
      env.uploadErr id = none)
    (hrmdir : ∀ m ∈ toCompact, env.removeLocalDirErr m.ulid = none)
    (hmark : ∀ m ∈ toCompact, env.markForDeletionErr m.ulid = none) :
    runCompactionJob env metas =
      ⟨true, metaULIDs out, none,
        { downloaded := toCompact.map (fun m => m.ulid)
          uploaded := convertCompactionResultToForEachJobs (metaULIDs out)
          markAttempted := toCompact.map (fun m => m.ulid)
          marked := toCompact.map (fun m => m.ulid)
          verificationFailedInc :=
            (verifyCompactedBlocksTimeRanges env.readMeta (metaULIDs out)
              (srcMinTime toCompact) (srcMaxTime toCompact)).elim 0 (fun _ => 1) }⟩ := by
  have hnemp : toCompact.isEmpty = false := by
    cases toCompact
    · exact absurd rfl hne
    · rfl
  simp only [metaULIDs] at hnz hread htomb hio hval hup ⊢
  rw [runCompactionJob, hmk, hplan]
  simp only [Bool.not_true, Bool.false_eq_true, if_false, hnemp]
  rw [downloadLoop_ok env toCompact {} hdl]
  simp only [hlb, Bool.not_true, Bool.false_eq_true, if_false]
  rw [openLoop_ok env toCompact hop, hcp]
  simp only [hnz, Bool.not_true, Bool.false_eq_true, if_false]
  rw [uploadLoop_ok env _ _ hread htomb hio hval hup]
  dsimp only
  rw [markSourcesLoop_ok env toCompact _ hrmdir hmark]
  dsimp only
  rw [bumpVerifyFailed]
  cases verifyCompactedBlocksTimeRanges env.readMeta (out.map fun o => o.ulid)
      (srcMinTime toCompact) (srcMaxTime toCompact) with
  | some e => simp
  | none => simp

/-- A bound violation among the output ids forces the verification function
to return an error. -/
theorem verify_isSome_of_violation (readMeta : Nat → Except String Meta)
    (ids : List Nat) (sMin sMax : Int)
    (h : ids.any (violatesBounds readMeta sMin sMax) = true) :
    ∃ e, verifyCompactedBlocksTimeRanges readMeta ids sMin sMax = some e := by
  have hbad : ids.any (badVerifyId readMeta sMin sMax) = true := by
    rw [List.any_eq_true] at h ⊢
    obtain ⟨id, hid, hv⟩ := h
    refine ⟨id, hid, ?_⟩
    rw [violatesBounds] at hv
    rw [badVerifyId]
    cases hrm : readMeta id with
    | error e =>
      rw [hrm] at hv
      simp at hv
    | ok m =>
      rw [hrm] at hv
      exact hv
  have hko := verifyLoop_error readMeta sMin sMax ids false false hbad
  rw [verifyCompactedBlocksTimeRanges]
  cases hv2 : verifyLoop readMeta sMin sMax ids false false with
  | error e => exact ⟨e, rfl⟩
  | ok p =>
    rw [hv2] at hko
    simp [Except.isOk, Except.toBool] at hko

/-- C7: if the planner returns an empty plan (and the local work directory
could be created), `runCompactionJob` stops and returns
`(shouldRerun = false, nil, nil)` with no download, upload, or
deletion-marking effect, whatever the other oracles would have done. -/
theorem c7_plan_empty_is_clean_stop (env : JobEnv) (metas : List Meta)
    (hmk : env.mkdirOk = true) (hplan : env.plan metas = .ok []) :
    runCompactionJob env metas = ⟨false, [], none, {}⟩ := by
  rw [runCompactionJob, hmk, hplan]
  rfl

/-- C7 witness: a concrete environment whose planner returns the empty plan
and whose later-stage oracles all fail; the job still stops cleanly. -/
def envC7 : JobEnv :=
  { mkdirOk := true
    plan := fun _ => .ok []
    downloadErr := fun _ => some "would fail"
    localBucketOk := false
    openErr := fun _ => some "would fail"
    compactResult := .error "would fail"
    readMeta := fun _ => .error "would fail"
    tombstonesPresent := fun _ => false
    tombstonesRemoveIOErr := fun _ => true
    validateErr := fun _ => some "would fail"
    uploadErr := fun _ => some "would fail"
    removeLocalDirErr := fun _ => some "would fail"
    markForDeletionErr := fun _ => some "would fail" }

/-- C7, witness at a concrete input. -/
theorem c7_witness :
    envC7.mkdirOk = true ∧ envC7.plan [] = .ok [] ∧
      runCompactionJob envC7 [] = ⟨false, [], none, {}⟩ :=
  ⟨rfl, rfl, c7_plan_empty_is_clean_stop envC7 [] rfl rfl⟩

/-- C1 counterexample data: one planned source block (id 10, time range
[0, 100], 5 samples). -/
def srcMetaC1 : Meta := ⟨10, 0, 100, 5, [], 0⟩

/-- C1 counterexample data: the compacted output (id 7) whose directory meta
has `MinTime = -1`, strictly below the source minimum 0. -/
def outMetaC1 : Meta := ⟨7, -1, 100, 5, [], 0⟩

/-- C1 counterexample environment: every I/O stage succeeds, and the
compactor emits an output block whose meta violates the source lower
bound. -/
def envC1 : JobEnv :=
  { mkdirOk := true
    plan := fun _ => .ok [srcMetaC1]
    downloadErr := fun _ => none
    localBucketOk := true
    openErr := fun _ => none
    compactResult := .ok [outMetaC1]
    readMeta := fun id => if id = 7 then .ok outMetaC1 else .error "no meta"
    tombstonesPresent := fun _ => true
    tombstonesRemoveIOErr := fun _ => false
    validateErr := fun _ => none
    uploadErr := fun _ => none
    removeLocalDirErr := fun _ => none
    markForDeletionErr := fun _ => none }

/-- C1: the claim is false as stated.  At this concrete input the compacted
output block has `MinTime = -1`, strictly below the planned source minimum 0,
yet `runCompactionJob` returns a nil error, reports the output, marks the
source block (id 10) for deletion, and only increments the verification
failure counter: a bound violation does not abort the job. -/
theorem c1_counterexample :
    outMetaC1.minTime < srcMinTime [srcMetaC1] ∧
      (runCompactionJob envC1 [srcMetaC1]).compIDs = [7] ∧
      (runCompactionJob envC1 [srcMetaC1]).err = none ∧
      (runCompactionJob envC1 [srcMetaC1]).effects.marked = [10] ∧
      (runCompactionJob envC1 [srcMetaC1]).effects.verificationFailedInc = 1 := by
  refine ⟨by decide, by decide, by decide, by decide, by decide⟩

/-- C1, amended: a bound violation in a compacted output does NOT abort the
job.  When every other stage succeeds, the violation makes
`verifyCompactedBlocksTimeRanges` fail, which is only logged and counted in
`compactionBlocksVerificationFailed`; the job then uploads the outputs,
marks every planned source for deletion, and returns a nil error. -/
theorem c1_bound_violation_does_not_abort (env : JobEnv) (metas toCompact out : List Meta)
    (hmk : env.mkdirOk = true)
    (hplan : env.plan metas = .ok toCompact)
    (hne : toCompact ≠ [])
    (hdl : ∀ m ∈ toCompact, env.downloadErr m.ulid = none)
    (hlb : env.localBucketOk = true)
    (hop : ∀ m ∈ toCompact, env.openErr m.ulid = none)
    (hcp : env.compactResult = .ok out)
    (hnz : hasNonZeroULIDs (metaULIDs out) = true)
    (hread : ∀ id ∈ convertCompactionResultToForEachJobs (metaULIDs out),
      (env.readMeta id).isOk = true)
    (htomb : ∀ id ∈ convertCompactionResultToForEachJobs (metaULIDs out),
      env.tombstonesPresent id = true)
    (hio : ∀ id ∈ convertCompactionResultToForEachJobs (metaULIDs out),
      env.tombstonesRemoveIOErr id = false)
    (hval : ∀ id ∈ convertCompactionResultToForEachJobs (metaULIDs out),
      env.validateErr id = none)
    (hup : ∀ id ∈ convertCompactionResultToForEachJobs (metaULIDs out),
      env.uploadErr id = none)
    (hrmdir : ∀ m ∈ toCompact, env.removeLocalDirErr m.ulid = none)
    (hmark : ∀ m ∈ toCompact, env.markForDeletionErr m.ulid = none)
    (hviol : (metaULIDs out).any
      (violatesBounds env.readMeta (srcMinTime toCompact) (srcMaxTime toCompact)) = true) :
    (runCompactionJob env metas).err = none ∧
      (runCompactionJob env metas).shouldRerun = true ∧
      (runCompactionJob env metas).compIDs = metaULIDs out ∧
      (runCompactionJob env metas).effects.marked = toCompact.map (fun m => m.ulid) ∧
      (runCompactionJob env metas).effects.verificationFailedInc = 1 := by
  obtain ⟨e, he⟩ := verify_isSome_of_violation env.readMeta (metaULIDs out)
    (srcMinTime toCompact) (srcMaxTime toCompact) hviol
  rw [runCompactionJob_success env metas toCompact out hmk hplan hne hdl hlb hop hcp hnz
    hread htomb hio hval hup hrmdir hmark]
  rw [metaULIDs] at he
  simp [he, metaULIDs]

/-- C1, witness for the amended theorem: the counterexample environment run
through the amended statement. -/
theorem c1_witness :
    (runCompactionJob envC1 [srcMetaC1]).err = none ∧
      (runCompactionJob envC1 [srcMetaC1]).shouldRerun = true ∧
      (runCompactionJob envC1 [srcMetaC1]).compIDs = metaULIDs [outMetaC1] ∧
      (runCompactionJob envC1 [srcMetaC1]).effects.marked =
        ([srcMetaC1].map (fun m => m.ulid)) ∧
      (runCompactionJob envC1 [srcMetaC1]).effects.verificationFailedInc = 1 :=
  c1_bound_violation_does_not_abort envC1 [srcMetaC1] [srcMetaC1] [outMetaC1]
    rfl rfl (by decide) (by decide) rfl (by decide) rfl (by decide) (by decide)
    (by decide) (by decide) (by decide) (by decide) (by decide) (by decide) (by decide)

/-- C3: when compaction succeeds but produces no output with a non-zero
ULID, and the local source directories can be removed, the job marks every
zero-sample planned source for deletion best-effort (a marking failure does
not change the nil outcome: only the successfully marked ids differ),
uploads nothing, and returns `(shouldRerun = true, nil, nil)`. -/
theorem c3_empty_compaction_result (env : JobEnv) (metas toCompact out : List Meta)
    (hmk : env.mkdirOk = true)
    (hplan : env.plan metas = .ok toCompact)
    (hne : toCompact ≠ [])
    (hdl : ∀ m ∈ toCompact, env.downloadErr m.ulid = none)
    (hlb : env.localBucketOk = true)
    (hop : ∀ m ∈ toCompact, env.openErr m.ulid = none)
    (hcp : env.compactResult = .ok out)
    (hz : ∀ o ∈ out, o.ulid = 0)
    (hrmdir : ∀ m ∈ toCompact, env.removeLocalDirErr m.ulid = none) :
    runCompactionJob env metas =
      ⟨true, [], none,
        { downloaded := toCompact.map (fun m => m.ulid)
          uploaded := []
          markAttempted :=
            (toCompact.filter (fun m => m.numSamples = 0)).map (fun m => m.ulid)
          marked :=
            (toCompact.filter (fun m =>
              m.numSamples = 0 ∧ env.markForDeletionErr m.ulid = none)).map
              (fun m => m.ulid)
          verificationFailedInc := 0 }⟩ := by
  have hnemp : toCompact.isEmpty = false := by
    cases toCompact
    · exact absurd rfl hne
    · rfl
  have hnz : hasNonZeroULIDs (out.map fun o => o.ulid) = false := by
    rw [hasNonZeroULIDs, List.any_eq_false]
    intro x hx
    rw [List.mem_map] at hx
    obtain ⟨o, ho, hxo⟩ := hx
    simp [← hxo, hz o ho]
  rw [runCompactionJob, hmk, hplan]
  simp only [Bool.not_true, Bool.false_eq_true, if_false, hnemp]
  rw [downloadLoop_ok env toCompact {} hdl]
  simp only [hlb, Bool.not_true, Bool.false_eq_true, if_false]
  rw [openLoop_ok env toCompact hop, hcp]
  simp only [hnz, Bool.not_false, if_true]
  rw [markEmptySourcesLoop_characterization env toCompact _ hrmdir]
  simp

/-- C3 witness data: a zero-sample source whose deletion marking fails, and
a source with samples; the job still returns `(true, nil, nil)`. -/
def envC3 : JobEnv :=
  { mkdirOk := true
    plan := fun _ => .ok [⟨10, 0, 100, 0, [], 0⟩, ⟨11, 50, 200, 3, [], 0⟩]
    downloadErr := fun _ => none
    localBucketOk := true
    openErr := fun _ => none
    compactResult := .ok [⟨0, 0, 0, 0, [], 0⟩]
    readMeta := fun _ => .error "unused"
    tombstonesPresent := fun _ => true
    tombstonesRemoveIOErr := fun _ => false
    validateErr := fun _ => none
    uploadErr := fun _ => none
    removeLocalDirErr := fun _ => none
    markForDeletionErr := fun id => if id = 10 then some "marking failed" else none }

/-- C3, witness: the empty-result path at a concrete input where the single
zero-sample source is attempted (id 10) but its marking fails; the error is
swallowed and the job returns `(true, nil, nil)`. -/
theorem c3_witness :
    runCompactionJob envC3 [] =
      ⟨true, [], none,
        { downloaded := [10, 11]
          uploaded := []
          markAttempted := [10]
          marked := []
          verificationFailedInc := 0 }⟩ := by
  have h := c3_empty_compaction_result envC3 [] [⟨10, 0, 100, 0, [], 0⟩, ⟨11, 50, 200, 3, [], 0⟩]
    [⟨0, 0, 0, 0, [], 0⟩] rfl rfl (by decide) (by decide) rfl (by decide) rfl
    (by decide) (by decide)
  rw [h]
  decide

/-- C10: a failure of `os.Remove` on the `tombstones` file of a non-empty
output block — in particular its absence — is a hard error in the upload
stage, so a job can return a nil error with a non-empty list of compacted
ids only if every non-empty output directory had its tombstones file present
and removable. -/
theorem c10_success_requires_tombstones (env : JobEnv) (metas : List Meta)
    (herr : (runCompactionJob env metas).err = none)
    (hnemp : (runCompactionJob env metas).compIDs ≠ []) :
    ∀ id ∈ (runCompactionJob env metas).compIDs, id ≠ 0 →
      env.tombstonesPresent id = true ∧ env.tombstonesRemoveIOErr id = false := by
  intro id hid h0
  rw [runCompactionJob] at herr hnemp hid
  cases hmk : env.mkdirOk with
  | false => rw [hmk] at hid; simp at hid
  | true =>
    rw [hmk] at herr hnemp hid
    simp only [Bool.not_true, Bool.false_eq_true, if_false] at herr hnemp hid
    cases hplan : env.plan metas with
    | error e => rw [hplan] at hid; simp at hid
    | ok toCompact =>
      rw [hplan] at herr hnemp hid
      dsimp only at herr hnemp hid
      cases hemp : toCompact.isEmpty with
      | true => rw [hemp] at hnemp; simp at hnemp
      | false =>
        rw [hemp] at herr hnemp hid
        simp only [Bool.false_eq_true, if_false] at herr hnemp hid
        rcases hdl : downloadLoop env toCompact {} with ⟨eff, dres⟩
        rw [hdl] at herr hnemp hid
        cases dres with
        | some e => simp at hid
        | none =>
          dsimp only at herr hnemp hid
          cases hlb : env.localBucketOk with
          | false => rw [hlb] at hid; simp at hid
          | true =>
            rw [hlb] at herr hnemp hid
            simp only [Bool.not_true, Bool.false_eq_true, if_false] at herr hnemp hid
            cases hop : openLoop env toCompact with
            | some e => rw [hop] at hid; simp at hid
            | none =>
              rw [hop] at herr hnemp hid
              cases hcp : env.compactResult with
              | error e => rw [hcp] at hid; simp at hid
              | ok out =>
                rw [hcp] at herr hnemp hid
                dsimp only at herr hnemp hid
                cases hnz : hasNonZeroULIDs (out.map fun o => o.ulid) with
                | false =>
                  rw [hnz] at hnemp
                  simp at hnemp
                | true =>
                  rw [hnz] at herr hnemp hid
                  simp only [Bool.not_true, Bool.false_eq_true, if_false]
                    at herr hnemp hid
                  rcases hupl : uploadLoop env
                      (convertCompactionResultToForEachJobs (out.map fun o => o.ulid))
                      (bumpVerifyFailed env (out.map fun o => o.ulid)
                        (srcMinTime toCompact) (srcMaxTime toCompact) eff) with ⟨eff3, ures⟩
                  rw [hupl] at herr hnemp hid
                  cases ures with
                  | some e => simp at hid
                  | none =>
                    dsimp only at herr hnemp hid
                    rcases hmsl : markSourcesLoop env toCompact eff3 with ⟨eff4, mres⟩
                    rw [hmsl] at herr hnemp hid
                    cases mres with
                    | some e => simp at hid
                    | none =>
                      dsimp only at hid
                      exact uploadLoop_none_forall env _ _ _ hupl id
                        (List.mem_filter.mpr ⟨hid, by simpa using h0⟩)

/-- C10 witness environment: a successful job with one non-empty output. -/
def envC10 : JobEnv :=
  { mkdirOk := true
    plan := fun _ => .ok [⟨10, 0, 100, 5, [], 0⟩]
    downloadErr := fun _ => none
    localBucketOk := true
    openErr := fun _ => none
    compactResult := .ok [⟨7, 0, 100, 5, [], 0⟩]
    readMeta := fun _ => .ok ⟨7, 0, 100, 5, [], 0⟩
    tombstonesPresent := fun _ => true
    tombstonesRemoveIOErr := fun _ => false
    validateErr := fun _ => none
    uploadErr := fun _ => none
    removeLocalDirErr := fun _ => none
    markForDeletionErr := fun _ => none }

/-- C10, witness: at a concrete successful job, the theorem yields that the
uploaded output directory had its tombstones file. -/
theorem c10_witness :
    envC10.tombstonesPresent 7 = true ∧ envC10.tombstonesRemoveIOErr 7 = false :=
  c10_success_requires_tombstones envC10 [] (by decide) (by decide) 7 (by decide) (by decide)

/-- Syncer state and metrics touched by `GarbageCollect`
(bucket_compactor.go:47-62, 128-163): the in-memory block map and the
`thanos_compact_garbage_collection_*` counters; the duration histogram is
tracked as an observation count. -/
structure SyncerState where
  blocks : List (Nat × Meta)
  garbageCollections : Nat
  garbageCollectionFailures : Nat
  garbageCollectionDurationObs : Nat
deriving DecidableEq

/-- Result of one `GarbageCollect` call: the new state, the ids successfully
marked for deletion in the bucket, and the returned error. -/
structure GCOutcome where
  state : SyncerState
  marked : List Nat
  err : Option String
deriving DecidableEq

/-- Go `delete(s.blocks, id)` on the association-list model of the map. -/
def removeKey (id : Nat) (blocks : List (Nat × Meta)) : List (Nat × Meta) :=
  blocks.filter (fun p => p.1 ≠ id)

/-- The loop of `Syncer.GarbageCollect` (bucket_compactor.go:140-159): for
each duplicate id, check the caller context, mark the block for deletion
(under a fresh background context, see C6), abort on the first marking
failure after bumping `garbageCollectionFailures`, and on success delete the
id from the in-memory map; after the loop bump `garbageCollections` and
observe the duration. -/
def garbageCollectLoop (ctxErr : Option String) (mark : Nat → Option String) :
    List Nat → SyncerState → List Nat → GCOutcome
  | [], s, acc =>
    ⟨{ s with
        garbageCollections := s.garbageCollections + 1
        garbageCollectionDurationObs := s.garbageCollectionDurationObs + 1 }, acc, none⟩
  | id :: rest, s, acc =>
    match ctxErr with
    | some e => ⟨s, acc, some e⟩
    | none =>
      match mark id with
      | some e =>
        ⟨{ s with garbageCollectionFailures := s.garbageCollectionFailures + 1 }, acc,
          some ("mark block for deletion: " ++ e)⟩
      | none =>
        garbageCollectLoop ctxErr mark rest
          { s with blocks := removeKey id s.blocks } (acc ++ [id])

/-- `Syncer.GarbageCollect` (bucket_compactor.go:128-163).  `ctxErr` is the
caller context error (constant during the call), `mark` the
`block.MarkForDeletion` oracle, `duplicateIDs` the ids reported by the
deduplicate filter. -/
def garbageCollect (ctxErr : Option String) (mark : Nat → Option String)
    (duplicateIDs : List Nat) (s : SyncerState) : GCOutcome :=
  garbageCollectLoop ctxErr mark duplicateIDs s []

/-- GC loop, all markings succeed: every id is marked and deleted from the
map, and the success metrics are bumped. -/
theorem garbageCollectLoop_ok (mark : Nat → Option String) (l : List Nat)
    (s : SyncerState) (acc : List Nat)
    (h : ∀ id ∈ l, mark id = none) :
    garbageCollectLoop none mark l s acc =
      ⟨⟨l.foldl (fun b id => removeKey id b) s.blocks, s.garbageCollections + 1,
        s.garbageCollectionFailures, s.garbageCollectionDurationObs + 1⟩,
        acc ++ l, none⟩ := by
  induction l generalizing s acc with
  | nil => simp [garbageCollectLoop]
  | cons id rest ih =>
    rw [garbageCollectLoop, h id (List.mem_cons_self ..)]
    rw [ih _ _ (fun x hx => h x (List.mem_cons_of_mem _ hx))]
    simp

/-- GC loop, first failure: the ids before the failure are marked and
deleted, the failure counter is bumped, the success metrics are not, and
the wrapped marking error is returned. -/
theorem garbageCollectLoop_first_failure (mark : Nat → Option String)
    (pre : List Nat) (bad : Nat) (post : List Nat) (e : String)
    (s : SyncerState) (acc : List Nat)
    (hpre : ∀ id ∈ pre, mark id = none) (hbad : mark bad = some e) :
    garbageCollectLoop none mark (pre ++ bad :: post) s acc =
      ⟨⟨pre.foldl (fun b id => removeKey id b) s.blocks, s.garbageCollections,
        s.garbageCollectionFailures + 1, s.garbageCollectionDurationObs⟩,
        acc ++ pre, some ("mark block for deletion: " ++ e)⟩ := by
  induction pre generalizing s acc with
  | nil =>
    rw [List.nil_append, garbageCollectLoop, hbad]
    simp
  | cons id rest ih =>
    rw [List.cons_append, garbageCollectLoop, hpre id (List.mem_cons_self ..)]
    rw [ih _ _ (fun x hx => hpre x (List.mem_cons_of_mem _ hx))]
    simp

/-- GC loop, some marking fails: the success metrics are untouched and an
error is returned. -/
theorem garbageCollectLoop_not_all_ok (mark : Nat → Option String) (l : List Nat)
    (s : SyncerState) (acc : List Nat)
    (h : ¬ ∀ id ∈ l, mark id = none) :
    (garbageCollectLoop none mark l s acc).state.garbageCollections =
        s.garbageCollections ∧
      (garbageCollectLoop none mark l s acc).state.garbageCollectionDurationObs =
        s.garbageCollectionDurationObs ∧
      (garbageCollectLoop none mark l s acc).err ≠ none := by
  induction l generalizing s acc with
  | nil => exact absurd (fun id hid => absurd hid (List.not_mem_nil id)) h
  | cons id rest ih =>
    rw [garbageCollectLoop]
    cases hm : mark id with
    | some e => exact ⟨rfl, rfl, by simp⟩
    | none =>
      have hrest : ¬ ∀ x ∈ rest, mark x = none := by
        intro hall
        exact h fun x hx => by
          rcases List.mem_cons.mp hx with hx | hx
          · rw [hx]; exact hm
          · exact hall x hx
      exact ih _ _ hrest

/-- C4: with a live caller context, `Syncer.GarbageCollect` (i) on all-good
markings marks every duplicate in the bucket, deletes each from the
in-memory map, returns nil and bumps `garbageCollections` and the duration
observation; (ii) on the first marking failure bumps
`garbageCollectionFailures`, returns the wrapped error, leaves the later
duplicates unprocessed while the earlier map deletions persist; and (iii)
bumps `garbageCollections`/the duration observation exactly when every
duplicate was marked successfully. -/
theorem c4_garbage_collect_characterization (mark : Nat → Option String)
    (duplicateIDs : List Nat) (s : SyncerState) :
    ((∀ id ∈ duplicateIDs, mark id = none) →
      garbageCollect none mark duplicateIDs s =
        ⟨⟨duplicateIDs.foldl (fun b id => removeKey id b) s.blocks,
          s.garbageCollections + 1, s.garbageCollectionFailures,
          s.garbageCollectionDurationObs + 1⟩, duplicateIDs, none⟩) ∧
    (∀ pre bad post e, duplicateIDs = pre ++ bad :: post →
      (∀ id ∈ pre, mark id = none) → mark bad = some e →
      garbageCollect none mark duplicateIDs s =
        ⟨⟨pre.foldl (fun b id => removeKey id b) s.blocks, s.garbageCollections,
          s.garbageCollectionFailures + 1, s.garbageCollectionDurationObs⟩,
          pre, some ("mark block for deletion: " ++ e)⟩) ∧
    (((garbageCollect none mark duplicateIDs s).state.garbageCollections =
          s.garbageCollections + 1 ∧
        (garbageCollect none mark duplicateIDs s).state.garbageCollectionDurationObs =
          s.garbageCollectionDurationObs + 1) ↔
      ∀ id ∈ duplicateIDs, mark id = none) := by
  refine ⟨?_, ?_, ?_⟩
  · intro h
    rw [garbageCollect, garbageCollectLoop_ok mark duplicateIDs s [] h]
    simp
  · intro pre bad post e hsplit hpre hbad
    rw [garbageCollect, hsplit,
      garbageCollectLoop_first_failure mark pre bad post e s [] hpre hbad]
    simp
  · constructor
    · intro hgc
      by_contra hnot
      have := garbageCollectLoop_not_all_ok mark duplicateIDs s [] hnot
      rw [garbageCollect] at hgc
      omega
    · intro h
      rw [garbageCollect, garbageCollectLoop_ok mark duplicateIDs s [] h]
      exact ⟨rfl, rfl⟩

/-- C4 witness data: duplicates `[1, 2, 3]`, the marking of id 2 fails. -/
def markC4 : Nat → Option String := fun id => if id = 2 then some "io error" else none

/-- C4 witness data: initial syncer state holding blocks 1, 2, 3. -/
def sC4 : SyncerState :=
  ⟨[(1, ⟨1, 0, 1, 1, [], 0⟩), (2, ⟨2, 0, 1, 1, [], 0⟩), (3, ⟨3, 0, 1, 1, [], 0⟩)], 4, 0, 4⟩

/-- C4, witness: the first-failure branch at a concrete input: block 1 is
marked and removed, the failure on block 2 aborts, block 3 stays, and the
success counter is not bumped. -/
theorem c4_witness :
    garbageCollect none markC4 [1, 2, 3] sC4 =
      ⟨⟨[(2, ⟨2, 0, 1, 1, [], 0⟩), (3, ⟨3, 0, 1, 1, [], 0⟩)], 4, 1, 4⟩,
        [1], some "mark block for deletion: io error"⟩ := by
  have h := (c4_garbage_collect_characterization markC4 [1, 2, 3] sC4).2.1
    [1] 2 [3] "io error" rfl (by decide) (by decide)
  rw [h]
  decide

/-- Outcome of executing a Go call that may return normally, return an
error, or panic. -/
inductive ExecOutcome (α : Type) where
  | ok (a : α)
  | err (e : String)
  | panicked (msg : String)
deriving DecidableEq

/-- What one iteration of a compaction worker goroutine does with a received
job (bucket_compactor.go:645-682). -/
inductive WorkerEvent where
  /-- ownership-check error or job no longer owned: log and continue. -/
  | skipped
  /-- `runCompactionJob` returned nil: update metrics and continue. -/
  | completed (shouldRerun : Bool) (compIDs : List Nat)
  /-- `runCompactionJob` returned an error: `errChan <- err` and return. -/
  | errorSent (e : String)
  /-- an unrecovered panic unwinds out of the worker goroutine. -/
  | panickedOut (msg : String)
deriving DecidableEq

/-- The worker received the event on the error channel. -/
def WorkerEvent.deliveredOnErrChan : WorkerEvent → Bool
  | .errorSent _ => true
  | _ => false

/-- The event escapes the worker goroutine (in Go, an unrecovered panic in
any goroutine crashes the whole process, supervisor included). -/
def WorkerEvent.escapesWorker : WorkerEvent → Bool
  | .panickedOut _ => true
  | _ => false

/-- One iteration of the worker loop in `Compact`
(bucket_compactor.go:647-681): re-check ownership, run the job, and either
continue, send the error to `errChan`, or — because the worker body contains
no `recover` — let a panic unwind the goroutine.  `own` is the
`c.ownJob(g)` result and `run` the outcome of `c.runCompactionJob`. -/
def compactionWorkerStep (own : Except String Bool)
    (run : ExecOutcome (Bool × List Nat)) : WorkerEvent :=
  match own with
  | .error _ => .skipped
  | .ok false => .skipped
  | .ok true =>
    match run with
    | .ok (r, ids) => .completed r ids
    | .err e => .errorSent ("group: " ++ e)
    | .panicked msg => .panickedOut msg

/-- `IngestionQueue.safePut` (queue.go:82-90): the deferred `recover`
converts a panic during `Ingest` into a returned error. -/
def safePut (ingest : ExecOutcome Unit) : Option String :=
  match ingest with
  | .ok _ => none
  | .err e => some e
  | .panicked msg => some ("panic recovered: " ++ msg)

/-- C5: the claim is false as stated.  A job that panics inside an owned
compaction worker is NOT converted to an error on the error channel: the
worker body has no `recover`, so the panic escapes the goroutine (crashing
the process, supervisor included). -/
theorem c5_counterexample :
    compactionWorkerStep (.ok true) (.panicked "boom") = .panickedOut "boom" ∧
      (compactionWorkerStep (.ok true) (.panicked "boom")).deliveredOnErrChan = false ∧
      (compactionWorkerStep (.ok true) (.panicked "boom")).escapesWorker = true := by
  refine ⟨rfl, rfl, rfl⟩

/-- C5, amended: only the ingestion queue converts panics to errors: for
every panic message, `safePut` recovers it into a returned error, while the
compaction worker — which lacks a `recover` — lets the panic escape instead
of delivering anything on the error channel.  Job errors (as opposed to
panics) are the ones delivered on the error channel. -/
theorem c5_panic_handling (msg e : String) :
    safePut (.panicked msg) = some ("panic recovered: " ++ msg) ∧
      (compactionWorkerStep (.ok true) (.panicked msg)).escapesWorker = true ∧
      (compactionWorkerStep (.ok true) (.panicked msg)).deliveredOnErrChan = false ∧
      (compactionWorkerStep (.ok true) (.err e)).deliveredOnErrChan = true := by
  refine ⟨rfl, rfl, rfl, rfl⟩

/-- A Go context, modelled by its derivation chain: each `WithCancel` /
`WithTimeout` node carries the handle of its own cancel/timer function.
`background` (`context.Background()`) has no handle and is never
cancelled. -/
inductive Ctx where
  | background
  | withCancelH (h : Nat) (parent : Ctx)
  | withTimeoutH (h : Nat) (timeoutMs : Nat) (parent : Ctx)
deriving DecidableEq

/-- A context is cancelled when its own handle has fired (explicit cancel or
timeout expiry) or an ancestor is cancelled; `dead` is the set of fired
handles. -/
def Ctx.cancelled (dead : Nat → Bool) : Ctx → Bool
  | .background => false
  | .withCancelH h p => dead h || p.cancelled dead
  | .withTimeoutH h _ p => dead h || p.cancelled dead

/-- Five minutes in milliseconds: the `5*time.Minute` deletion timeout. -/
def fiveMinutesMs : Nat := 5 * 60 * 1000

/-- The context used for the deletion-marker write in
`Syncer.GarbageCollect` (bucket_compactor.go:146):
`context.WithTimeout(context.Background(), 5*time.Minute)` — derived from
the background context, not from the caller context.  `freshHandle` is the
timer handle of the new context. -/
def gcMarkDeletionCtx (freshHandle : Nat) (_callerCtx : Ctx) : Ctx :=
  .withTimeoutH freshHandle fiveMinutesMs .background

/-- The context used for the deletion-marker write in `deleteBlock`
(bucket_compactor.go:486): the same fresh
`context.WithTimeout(context.Background(), 5*time.Minute)`. -/
def deleteBlockMarkDeletionCtx (freshHandle : Nat) (_callerCtx : Ctx) : Ctx :=
  .withTimeoutH freshHandle fiveMinutesMs .background

/-- C6: both deletion-marker call sites build a fresh 5-minute timeout
context derived from the background context, whatever the caller context is;
consequently, as long as the fresh 5-minute timer has not fired, the
deletion context is not cancelled — for EVERY set of fired handles, in
particular one cancelling the whole caller context chain. -/
theorem c6_deletion_ctx_independent_of_caller (freshHandle : Nat) (callerCtx : Ctx)
    (dead : Nat → Bool) (hfresh : dead freshHandle = false) :
    gcMarkDeletionCtx freshHandle callerCtx =
        Ctx.withTimeoutH freshHandle fiveMinutesMs .background ∧
      deleteBlockMarkDeletionCtx freshHandle callerCtx =
        Ctx.withTimeoutH freshHandle fiveMinutesMs .background ∧
      (gcMarkDeletionCtx freshHandle callerCtx).cancelled dead = false ∧
      (deleteBlockMarkDeletionCtx freshHandle callerCtx).cancelled dead = false := by
  refine ⟨rfl, rfl, ?_, ?_⟩ <;>
    simp [gcMarkDeletionCtx, deleteBlockMarkDeletionCtx, Ctx.cancelled, hfresh]

/-- C6, witness: the caller context chain is fully cancelled (handles 1 and
2 fired) yet the deletion contexts derived at both sites are unaffected. -/
theorem c6_witness :
    (fun h => decide (h = 1 ∨ h = 2)) 0 = false ∧
      (gcMarkDeletionCtx 0 (.withCancelH 2 (.withCancelH 1 .background))).cancelled
        (fun h => decide (h = 1 ∨ h = 2)) = false ∧
      (deleteBlockMarkDeletionCtx 0 (.withCancelH 2 (.withCancelH 1 .background))).cancelled
        (fun h => decide (h = 1 ∨ h = 2)) = false :=
  ⟨rfl,
    (c6_deletion_ctx_independent_of_caller 0 (.withCancelH 2 (.withCancelH 1 .background))
      (fun h => decide (h = 1 ∨ h = 2)) rfl).2.2.1,
    (c6_deletion_ctx_independent_of_caller 0 (.withCancelH 2 (.withCancelH 1 .background))
      (fun h => decide (h = 1 ∨ h = 2)) rfl).2.2.2⟩

/-- Go `noCompactMarkedMap[blockID] = struct{}{}`: map insertion is
idempotent, modelled as append-if-new on the list of marked ids. -/
def insertMarked (id : Nat) (acc : List Nat) : List Nat :=
  if id ∈ acc then acc else acc ++ [id]

/-- The `bkt.Iter` callback loop of `NoCompactionMarkFilter.Filter`
(bucket_compactor.go:852-870).  `markers` is the sequence of object names
under the `markers/` prefix, each already passed through
`block.IsNoCompactMarkFilename` (`some id` for a no-compact marker of block
`id`, `none` for any other object).  For each marker whose block is present
in the current metas, the id is recorded, and the block is deleted from
metas when `removeNoCompactBlocks` is set.  This models the successful
execution: the per-callback `ctx.Err()` check (lines 853-855) can only abort
the whole call, which the claim excludes by assuming a successful call. -/
def noCompactFilterLoop (removeNoCompactBlocks : Bool) :
    List (Option Nat) → List (Nat × Meta) → List Nat → List (Nat × Meta) × List Nat
  | [], metas, acc => (metas, acc)
  | none :: rest, metas, acc => noCompactFilterLoop removeNoCompactBlocks rest metas acc
  | some id :: rest, metas, acc =>
    if metas.any (fun p => p.1 = id) then
      noCompactFilterLoop removeNoCompactBlocks rest
        (if removeNoCompactBlocks then metas.filter (fun p => p.1 ≠ id) else metas)
        (insertMarked id acc)
    else
      noCompactFilterLoop removeNoCompactBlocks rest metas acc

/-- `NoCompactionMarkFilter.Filter` (bucket_compactor.go:848-877) on a
successful call: returns the final metas map and the freshly built
`noCompactMarkedMap` (the value `NoCompactMarkedBlocks()` then returns). -/
def noCompactionMarkFilterFilter (removeNoCompactBlocks : Bool)
    (markers : List (Option Nat)) (metas : List (Nat × Meta)) :
    List (Nat × Meta) × List Nat :=
  noCompactFilterLoop removeNoCompactBlocks markers metas []

/-- The filter loop leaves metas untouched when `removeNoCompactBlocks` is
false. -/
theorem noCompactFilterLoop_metas_keep (markers : List (Option Nat))
    (metas : List (Nat × Meta)) (acc : List Nat) :
    (noCompactFilterLoop false markers metas acc).1 = metas := by
  induction markers generalizing metas acc with
  | nil => rfl
  | cons marker rest ih =>
    cases marker with
    | none => exact ih metas acc
    | some id =>
      rw [noCompactFilterLoop]
      by_cases hp : metas.any (fun p => p.1 = id) = true
      · rw [if_pos hp, if_neg (by simp)]
        exact ih metas _
      · rw [if_neg hp]
        exact ih metas acc

/-- The filter loop with `removeNoCompactBlocks` deletes exactly the map
entries whose key has a no-compact marker. -/
theorem noCompactFilterLoop_metas_remove (markers : List (Option Nat))
    (metas : List (Nat × Meta)) (acc : List Nat) :
    (noCompactFilterLoop true markers metas acc).1 =
      metas.filter (fun p => decide ((some p.1) ∉ markers)) := by
  induction markers generalizing metas acc with
  | nil => simp [noCompactFilterLoop]
  | cons marker rest ih =>
    cases marker with
    | none =>
      rw [noCompactFilterLoop, ih metas acc]
      refine List.filter_congr ?_
      intro p _
      simp
    | some id =>
      rw [noCompactFilterLoop]
      by_cases hp : metas.any (fun p => p.1 = id) = true
      · rw [if_pos hp, if_pos rfl, ih _ _]
        rw [List.filter_filter]
        refine List.filter_congr ?_
        intro a _
        by_cases h1 : some a.1 ∈ rest <;> by_cases h2 : a.1 = id <;>
          simp [h1, h2]
      · rw [if_neg hp, ih metas acc]
        have hp2 : ∀ p ∈ metas, p.1 ≠ id := by
          intro p hpm hcon
          exact hp (List.any_eq_true.mpr ⟨p, hpm, by simp [hcon]⟩)
        refine List.filter_congr ?_
        intro p hpm
        simp [hp2 p hpm]

/-- Membership in `insertMarked`. -/
theorem mem_insertMarked (x id : Nat) (acc : List Nat) :
    x ∈ insertMarked id acc ↔ x ∈ acc ∨ x = id := by
  rw [insertMarked]
  by_cases hin : id ∈ acc
  · rw [if_pos hin]
    constructor
    · exact Or.inl
    · rintro (hx | rfl)
      · exact hx
      · exact hin
  · rw [if_neg hin]
    simp

/-- The marked set built by the filter loop: an id is recorded iff it was
already recorded, or some marker names it and it is a key of the current
metas. -/
theorem noCompactFilterLoop_marked (removeNoCompactBlocks : Bool)
    (markers : List (Option Nat)) (metas : List (Nat × Meta)) (acc : List Nat)
    (x : Nat) :
    x ∈ (noCompactFilterLoop removeNoCompactBlocks markers metas acc).2 ↔
      x ∈ acc ∨ (some x ∈ markers ∧ x ∈ metas.map Prod.fst) := by
  induction markers generalizing metas acc with
  | nil => simp [noCompactFilterLoop]
  | cons marker rest ih =>
    cases marker with
    | none =>
      rw [noCompactFilterLoop, ih metas acc]
      simp
    | some id =>
      rw [noCompactFilterLoop]
      by_cases hp : metas.any (fun p => p.1 = id) = true
      · rw [if_pos hp, ih _ _]
        rw [mem_insertMarked]
        have hkeys : ∀ y, y ≠ id →
            (y ∈ (if removeNoCompactBlocks then
                metas.filter (fun p => p.1 ≠ id) else metas).map Prod.fst ↔
              y ∈ metas.map Prod.fst) := by
          intro y hy
          cases removeNoCompactBlocks with
          | false => rw [if_neg (by simp)]
          | true =>
            rw [if_pos rfl]
            simp only [List.mem_map, List.mem_filter]
            constructor
            · rintro ⟨p, ⟨hpm, _⟩, hpy⟩
              exact ⟨p, hpm, hpy⟩
            · rintro ⟨p, hpm, hpy⟩
              refine ⟨p, ⟨hpm, ?_⟩, hpy⟩
              rw [hpy]
              simpa using hy
        have hidm : id ∈ metas.map Prod.fst := by
          rw [List.any_eq_true] at hp
          obtain ⟨p, hpm, hpe⟩ := hp
          rw [List.mem_map]
          exact ⟨p, hpm, by simpa using hpe⟩
        by_cases hx : x = id
        · subst hx
          simp [hidm]
        · rw [hkeys x hx]
          simp only [List.mem_cons, Option.some.injEq]
          constructor
          · rintro ((ha | rfl) | ⟨hr, hm⟩)
            · exact Or.inl ha
            · exact absurd rfl hx
            · exact Or.inr ⟨Or.inr hr, hm⟩
          · rintro (ha | ⟨(he | hr), hm⟩)
            · exact Or.inl (Or.inl ha)
            · exact absurd (by simpa using he) hx
            · exact Or.inr ⟨hr, hm⟩
      · rw [if_neg hp, ih metas acc]
        have hidm : id ∉ metas.map Prod.fst := by
          rw [List.mem_map]
          rintro ⟨p, hpm, hpe⟩
          exact hp (List.any_eq_true.mpr ⟨p, hpm, by simp [hpe]⟩)
        simp only [List.mem_cons, Option.some.injEq]
        constructor
        · rintro (ha | ⟨hr, hm⟩)
          · exact Or.inl ha
          · exact Or.inr ⟨Or.inr hr, hm⟩
        · rintro (ha | ⟨(he | hr), hm⟩)
          · exact Or.inl ha
          · rw [show x = id by simpa using he] at hm
            exact absurd hm hidm
          · exact Or.inr ⟨hr, hm⟩

/-- C8: after a successful `NoCompactionMarkFilter.Filter` call, the
recorded no-compact set contains exactly the ids that have a no-compact
marker under `markers/` AND are keys of the input metas; metas entries are
deleted exactly when `removeNoCompactBlocks` is true (the marked entries are
removed), and with it false the metas map is unchanged. -/
theorem c8_no_compact_filter (removeNoCompactBlocks : Bool)
    (markers : List (Option Nat)) (metas : List (Nat × Meta)) :
    (∀ x, x ∈ (noCompactionMarkFilterFilter removeNoCompactBlocks markers metas).2 ↔
        ((some x) ∈ markers ∧ x ∈ metas.map Prod.fst)) ∧
      (removeNoCompactBlocks = false →
        (noCompactionMarkFilterFilter removeNoCompactBlocks markers metas).1 = metas) ∧
      (removeNoCompactBlocks = true →
        (noCompactionMarkFilterFilter removeNoCompactBlocks markers metas).1 =
          metas.filter (fun p => decide ((some p.1) ∉ markers))) := by
  refine ⟨?_, ?_, ?_⟩
  · intro x
    rw [noCompactionMarkFilterFilter,
      noCompactFilterLoop_marked removeNoCompactBlocks markers metas [] x]
    simp
  · rintro rfl
    exact noCompactFilterLoop_metas_keep markers metas []
  · rintro rfl
    exact noCompactFilterLoop_metas_remove markers metas []

/-- C8 witness data: two blocks; markers name block 1 (twice), block 3 (not
in metas), and include an unrelated object. -/
def metasC8 : List (Nat × Meta) :=
  [(1, ⟨1, 0, 1, 1, [], 0⟩), (2, ⟨2, 0, 1, 1, [], 0⟩)]

/-- C8, witness: the characterization applied at a concrete input, with
both values of `removeNoCompactBlocks`. -/
theorem c8_witness :
    (1 ∈ (noCompactionMarkFilterFilter true [some 1, none, some 3, some 1] metasC8).2 ↔
        ((some 1) ∈ [some 1, none, some 3, some 1] ∧ 1 ∈ metasC8.map Prod.fst)) ∧
      (noCompactionMarkFilterFilter false [some 1, none, some 3, some 1] metasC8).1 =
        metasC8 ∧
      (noCompactionMarkFilterFilter true [some 1, none, some 3, some 1] metasC8).1 =
        metasC8.filter (fun p => decide ((some p.1) ∉ [some 1, none, some 3, some 1])) :=
  ⟨(c8_no_compact_filter true [some 1, none, some 3, some 1] metasC8).1 1,
    (c8_no_compact_filter false [some 1, none, some 3, some 1] metasC8).2.1 rfl,
    (c8_no_compact_filter true [some 1, none, some 3, some 1] metasC8).2.2 rfl⟩

/-- Total Boolean order on label pairs: by name, ties broken by value.
`labels.FromMap` sorts by name only; since Go map keys are unique there are
no name ties among entries of one map, so sorting by (name, value) produces
the same list while giving a genuinely antisymmetric order. -/
def labelPairLE (a b : String × String) : Bool :=
  decide (a.1 < b.1) || (decide (a.1 = b.1) && decide (a.2 ≤ b.2))

/-- `labels.FromMap(meta.Labels)` (used at bucket_compactor.go:176): the
label pairs of the map, sorted by name. -/
def labelsFromMap (m : List (String × String)) : List (String × String) :=
  m.mergeSort labelPairLE

/-- Modelled from the spec: `util.StableHash` (package `pkg/util`, not under
`src/`) is "deterministic across processes and independent of label-map
iteration order" — a pure hash of the sorted label list.  Any fixed pure
function of the pair list realizes that contract; an FNV-style fold over the
name and value characters is used here. -/
def stableHash (lbls : List (String × String)) : Nat :=
  lbls.foldl
    (fun h p =>
      p.2.foldl (fun h2 c => (h2 * 31 + c.toNat) % 2 ^ 64)
        (p.1.foldl (fun h1 c => (h1 * 31 + c.toNat) % 2 ^ 64) h))
    14695981039346656037

/-- `defaultGroupKey` (bucket_compactor.go:179-181):
`fmt.Sprintf("%d@%v", res, util.StableHash(lbls))`. -/
def defaultGroupKey (res : Int) (lbls : List (String × String)) : String :=
  toString res ++ "@" ++ toString (stableHash lbls)

/-- `DefaultGroupKey` (bucket_compactor.go:175-177). -/
def DefaultGroupKey (meta : Meta) : String :=
  defaultGroupKey meta.resolution (labelsFromMap meta.labels)

/-- `labelPairLE` is transitive. -/
theorem labelPairLE_trans (a b c : String × String)
    (hab : labelPairLE a b = true) (hbc : labelPairLE b c = true) :
    labelPairLE a c = true := by
  simp only [labelPairLE, Bool.or_eq_true, Bool.and_eq_true, decide_eq_true_eq]
    at hab hbc ⊢
  rcases hab with hab | ⟨hab1, hab2⟩
  · rcases hbc with hbc | ⟨hbc1, hbc2⟩
    · exact Or.inl (lt_trans hab hbc)
    · exact Or.inl (hbc1 ▸ hab)
  · rcases hbc with hbc | ⟨hbc1, hbc2⟩
    · exact Or.inl (hab1 ▸ hbc)
    · exact Or.inr ⟨hab1.trans hbc1, le_trans hab2 hbc2⟩

/-- `labelPairLE` is total. -/
theorem labelPairLE_total (a b : String × String) :
    (labelPairLE a b || labelPairLE b a) = true := by
  simp only [labelPairLE, Bool.or_eq_true, Bool.and_eq_true, decide_eq_true_eq]
  rcases lt_trichotomy a.1 b.1 with h | h | h
  · exact Or.inl (Or.inl h)
  · rcases le_total a.2 b.2 with h2 | h2
    · exact Or.inl (Or.inr ⟨h, h2⟩)
    · exact Or.inr (Or.inr ⟨h.symm, h2⟩)
  · exact Or.inr (Or.inl h)

/-- `labelPairLE` is antisymmetric. -/
theorem labelPairLE_antisymm (a b : String × String)
    (hab : labelPairLE a b = true) (hba : labelPairLE b a = true) : a = b := by
  simp only [labelPairLE, Bool.or_eq_true, Bool.and_eq_true, decide_eq_true_eq]
    at hab hba
  rcases hab with hab | ⟨hab1, hab2⟩
  · rcases hba with hba | ⟨hba1, hba2⟩
    · exact absurd hba (lt_asymm hab)
    · exact absurd hab (hba1 ▸ lt_irrefl _)
  · rcases hba with hba | ⟨hba1, hba2⟩
    · exact absurd hba (hab1 ▸ lt_irrefl _)
    · exact Prod.ext hab1 (le_antisymm hab2 hba2)

/-- C9: `DefaultGroupKey` is a pure function that only depends on the label
map contents, not on iteration order: two metas with equal resolution whose
label lists are permutations of one another (the same key-value pairs in any
order) get the same group key. -/
theorem c9_default_group_key_stable (m1 m2 : Meta)
    (hres : m1.resolution = m2.resolution)
    (hperm : m1.labels.Perm m2.labels) :
    DefaultGroupKey m1 = DefaultGroupKey m2 := by
  have hs1 := @List.sorted_mergeSort _ labelPairLE labelPairLE_trans labelPairLE_total
    m1.labels
  have hs2 := @List.sorted_mergeSort _ labelPairLE labelPairLE_trans labelPairLE_total
    m2.labels
  have hp : (m1.labels.mergeSort labelPairLE).Perm (m2.labels.mergeSort labelPairLE) :=
    ((List.mergeSort_perm m1.labels labelPairLE).trans hperm).trans
      (List.mergeSort_perm m2.labels labelPairLE).symm
  have heq : m1.labels.mergeSort labelPairLE = m2.labels.mergeSort labelPairLE :=
    @List.eq_of_perm_of_sorted _ (fun a b => labelPairLE a b = true)
      ⟨labelPairLE_antisymm⟩ _ _ hp hs1 hs2
  rw [DefaultGroupKey, DefaultGroupKey, hres, labelsFromMap, labelsFromMap, heq]

/-- C9 witness data: the same two labels in the two iteration orders. -/
def metaC9a : Meta := ⟨1, 0, 1, 1, [("app", "api"), ("env", "prod")], 100⟩

/-- C9 witness data: the permuted label list. -/
def metaC9b : Meta := ⟨2, 5, 9, 7, [("env", "prod"), ("app", "api")], 100⟩

/-- C9, witness: equal group keys at a concrete permuted pair. -/
theorem c9_witness : DefaultGroupKey metaC9a = DefaultGroupKey metaC9b :=
  c9_default_group_key_stable metaC9a metaC9b rfl (by decide)

end PyroscopeCompactor
